import Mathlib

/-!
Verification of the ncdac-opi-parser loading engine.

Shallow embedding of the repository's Rust source into Lean:
* `src/utilities.rs`   — `to_snake_case`, `get_primary_key_field`
* `src/file_description.rs` — `FieldDefinition`, the DES line regex, `parse_content`
* `src/parser.rs`      — field slicing (`parse_line`), value coercion (`coerce_value`)
* `src/data_handler.rs` — `DataHandler`, `commit_batch`, `insert_records_for_file`,
  `create_table_for_file`, `process_file`, `init`

Rust strings are modelled as `List Char` (the data is fixed-width ASCII, so byte
indices and character indices coincide).  Rust `HashMap` values are modelled as
association lists with `insertR` (insert-or-replace) mirroring `HashMap::insert`;
iteration order over a `HashMap` is unspecified in Rust, the association list
fixes one order, which none of the proved properties depend on.  The SQLite
connection is modelled by an explicit `Database` state plus an abstract `Engine`
that classifies the execution of a prepared INSERT exactly the way
`rusqlite::Error` is classified by the code (success / constraint violation with
an extended code / any other error).  File-system access (descriptor text and
record data per file id) is modelled by an explicit `Env`.
-/

namespace NcdacOpi

/-- Characters of a Rust `&str`. -/
abbrev Str := List Char

/-- `char::is_whitespace` restricted to the ASCII range of the data files. -/
def isWS (c : Char) : Bool := c.isWhitespace

/-- Rust `str::trim` (both ends). -/
def trimChars (s : Str) : Str :=
  ((s.dropWhile isWS).reverse.dropWhile isWS).reverse

/-- Rust `str::trim_end`. -/
def trimEndChars (s : Str) : Str :=
  (s.reverse.dropWhile isWS).reverse

/-! ### src/utilities.rs -/

/-- `to_snake_case`, step 2: replace every non-alphanumeric character of the
lowercased string by an underscore. -/
def underscorefy (s : Str) : Str :=
  (s.map Char.toLower).map fun c => if c.isAlphanum then c else '_'

/-- `to_snake_case`, step 4: collapse consecutive underscores, tracking
whether the previous character was an underscore (the `prev_was_underscore`
flag of the source). -/
def collapseUnderscores : Str → Bool → Str
  | [], _ => []
  | c :: rest, prev =>
    if c = '_' then
      (if prev then [] else ['_']) ++ collapseUnderscores rest true
    else
      c :: collapseUnderscores rest false

/-- `to_snake_case`, step 3: `trim_matches('_')`. -/
def trimUnderscores (s : Str) : Str :=
  ((s.dropWhile (· = '_')).reverse.dropWhile (· = '_')).reverse

/-- `utilities::to_snake_case`: lowercase, non-alphanumeric → `_`, collapse
runs of `_`, strip leading/trailing `_`. -/
def to_snake_case (s : String) : String :=
  String.mk (trimUnderscores (collapseUnderscores (underscorefy s.data) false))

/-- `HashMap::contains_key` on the association-list model. -/
def containsKey (m : List (String × α)) (k : String) : Bool :=
  m.any fun p => p.1 == k

/-- The ordered primary-key candidate list of `utilities::get_primary_key_field`. -/
def KEY_CANDIDATES : List String := ["CMDORNUM", "CIDORNUM", "CDDORNUM"]

/-- `utilities::get_primary_key_field`: first candidate present in the schema. -/
def get_primary_key_field (schema : List (String × α)) : Option String :=
  KEY_CANDIDATES.find? fun k => containsKey schema k

/-! ### src/file_description.rs — data model -/

/-- `file_description::FieldDefinition`. -/
structure FieldDefinition where
  field_type : String
  start : Nat
  length : Nat
  description : String
deriving DecidableEq

/-- `HashMap::insert` on the association-list model: replace the value when
the key is present, append the binding otherwise. -/
def insertR (m : List (String × α)) (k : String) (v : α) : List (String × α) :=
  match m with
  | [] => [(k, v)]
  | (k', v') :: rest =>
    if k' == k then (k', v) :: rest else (k', v') :: insertR rest k v

/-! ### src/parser.rs — value coercion and field slicing -/

/-- `parser::NULL_DATE_MARKER`. -/
def NULL_DATE_MARKER : Str := "0001-01-01".data

/-- The `^\?+$` regex of `parser::ALL_QUESTION_MARKS`: one or more `?`
characters and nothing else. -/
def allQuestionMarks (s : Str) : Bool :=
  !s.isEmpty && s.all fun c => c == '?'

/-- `DataParser::coerce_value`: trim, then empty / `"0001-01-01"` / all-`?`
become null, everything else is kept trimmed. -/
def coerce_value (raw : Str) : Option String :=
  let value := trimChars raw
  if value.isEmpty then none
  else if value = NULL_DATE_MARKER then none
  else if allQuestionMarks value then none
  else some (String.mk value)

/-- Modelled from the spec (§4.2), for comparison with `coerce_value`:
"(1) trim leading/trailing whitespace; (2) empty → null; (3) exact value
`0001-01-01` → null; (4) value composed entirely of one-or-more `?`
characters → null; (5) otherwise the trimmed value is kept". -/
def coerceSpec (raw : Str) : Option String :=
  let t := trimChars raw
  if t = [] then none
  else if t = "0001-01-01".data then none
  else if 1 ≤ t.length ∧ ∀ c ∈ t, c = '?' then none
  else some (String.mk t)

/-- The field-slicing step of `DataParser::parse_line`: the raw value of a
field with 1-indexed `start` and `length` against a line.  `start - 1` is
Rust's `saturating_sub(1)` (`Nat` subtraction saturates the same way). -/
def extract_raw (line : Str) (fd : FieldDefinition) : Str :=
  let slice_start := fd.start - 1
  let slice_end := slice_start + fd.length
  if slice_end ≤ line.length then (line.drop slice_start).take fd.length
  else if slice_start < line.length then line.drop slice_start
  else []

/-- `DataParser::parse_line`: build a record by inserting the coerced raw
slice of every schema field. -/
def parse_line (schema : List (String × FieldDefinition)) (line : Str) :
    List (String × Option String) :=
  schema.foldl (fun record p => insertR record p.1 (coerce_value (extract_raw line p.2))) []

/-! ### src/file_description.rs — the DES line regex

The descriptor pattern is the anchored regex
`^(\S+)\s{2,}(.+?)\s{2,}([A-Z]+)\s+(\d+)\s+(\d+)`.  Every repetition in it
ranges over a single character class, so the whole pattern is a sequence of
"at least `min` characters of class `cls`" items, each greedy or lazy and
optionally capturing.  `matchToks` is a backtracking matcher with Perl-style
leftmost-first semantics, which is the capture semantics of the `regex`
crate: a greedy item tries the longest repetition first, a lazy item the
shortest, and the first assignment under which the remaining items match
wins. -/

/-- One repetition item of the DES pattern. -/
structure Tok where
  cls : Char → Bool
  lazyRep : Bool
  min : Nat
  capture : Bool

/-- Backtracking matcher for a sequence of repetition items, anchored at the
start of the input; trailing input is allowed (the pattern has no `$`).
Returns the captured substrings on success. -/
def matchToks : List Tok → Str → Option (List Str)
  | [], _ => some []
  | t :: ts, s =>
    let run := (s.takeWhile t.cls).length
    let base := List.range' t.min (run + 1 - t.min)
    let ks := if t.lazyRep then base else base.reverse
    ks.findSome? fun k =>
      (matchToks ts (s.drop k)).map fun caps =>
        if t.capture then s.take k :: caps else caps

/-- `\S` (the data is ASCII; whitespace classes coincide there). -/
def notWSCls (c : Char) : Bool := !c.isWhitespace

/-- `.` — any character but a newline. -/
def dotCls (c : Char) : Bool := c != '\n'

/-- `[A-Z]`. -/
def upperCls (c : Char) : Bool := 'A' ≤ c && c ≤ 'Z'

/-- The token sequence of `DES_LINE_REGEX`:
`(\S+)  \s{2,}  (.+?)  \s{2,}  ([A-Z]+)  \s+  (\d+)  \s+  (\d+)`. -/
def desToks : List Tok :=
  [⟨notWSCls, false, 1, true⟩,
   ⟨isWS, false, 2, false⟩,
   ⟨dotCls, true, 1, true⟩,
   ⟨isWS, false, 2, false⟩,
   ⟨upperCls, false, 1, true⟩,
   ⟨isWS, false, 1, false⟩,
   ⟨Char.isDigit, false, 1, true⟩,
   ⟨isWS, false, 1, false⟩,
   ⟨Char.isDigit, false, 1, true⟩]

/-- The five capture groups of a matched DES line. -/
structure DesCaptures where
  code : Str
  descr : Str
  ftype : Str
  startTok : Str
  lenTok : Str
deriving DecidableEq

/-- `DES_LINE_REGEX.captures(line)`: the pattern is `^`-anchored, so the
match is attempted at position 0 only. -/
def desMatch (line : Str) : Option DesCaptures :=
  match matchToks desToks line with
  | some [c, d, t, st, ln] => some ⟨c, d, t, st, ln⟩
  | _ => none

/-! ### src/file_description.rs — parse_content -/

/-- `usize::MAX` on the 64-bit targets the crate builds for. -/
def USIZE_MAX : Nat := 18446744073709551615

/-- Numeric value of a digit string. -/
def digitsVal (s : Str) : Nat :=
  s.foldl (fun a c => a * 10 + (c.toNat - 48)) 0

/-- Rust `str::parse::<usize>`: an optional leading `+`, then one or more
digits whose value fits in `usize`; anything else is an error (`none`). -/
def parseUsize (s : Str) : Option Nat :=
  let digits := match s with
    | '+' :: rest => rest
    | _ => s
  if digits.isEmpty then none
  else if digits.all Char.isDigit then
    if digitsVal digits ≤ USIZE_MAX then some (digitsVal digits) else none
  else none

/-- The line loop of `FileDescription::parse_content`: trim the end of the
raw line, skip it when blank, skip it when the DES regex does not match,
otherwise parse the start/length captures (an unparsable token aborts with
an error) and insert the field definition (last definition wins). -/
def parseLinesAux : List (String × FieldDefinition) → List Str →
    Except String (List (String × FieldDefinition))
  | schema, [] => .ok schema
  | schema, raw :: rest =>
    let line := trimEndChars raw
    if (trimChars line).isEmpty then parseLinesAux schema rest
    else
      match desMatch line with
      | none => parseLinesAux schema rest
      | some caps =>
        let field_code := String.mk caps.code
        match parseUsize caps.startTok with
        | none => .error ("Failed to parse start position for field " ++ field_code)
        | some startPos =>
          match parseUsize caps.lenTok with
          | none => .error ("Failed to parse length for field " ++ field_code)
          | some lenVal =>
            parseLinesAux
              (insertR schema field_code
                ⟨String.mk (trimChars caps.ftype), startPos, lenVal,
                 String.mk (trimChars caps.descr)⟩)
              rest

/-- Strip one trailing carriage return (`str::lines` semantics for a
segment that was terminated by `\n`). -/
def stripCR (l : Str) : Str :=
  match l.getLast? with
  | some c => if c = '\r' then l.dropLast else l
  | none => l

/-- Helper for `rustLines`: all segments but the last were `\n`-terminated
and lose a trailing `\r`; an empty final segment (trailing newline or empty
input) is dropped. -/
def rustLinesAux : List Str → List Str
  | [] => []
  | [last] => if last.isEmpty then [] else [last]
  | p :: rest => stripCR p :: rustLinesAux rest

/-- Split a character sequence at every newline, keeping the (possibly
empty) segments; the result has one segment per newline plus one. -/
def splitNl : Str → List Str
  | [] => [[]]
  | c :: rest =>
    if c = '\n' then [] :: splitNl rest
    else
      match splitNl rest with
      | [] => [[c]]
      | seg :: segs => (c :: seg) :: segs

/-- Rust `str::lines`. -/
def rustLines (content : String) : List Str :=
  rustLinesAux (splitNl content.data)

/-- `FileDescription::parse_content`. -/
def parse_content (content : String) : Except String (List (String × FieldDefinition)) :=
  parseLinesAux [] (rustLines content)

/-! ### src/data_handler.rs — data model -/

/-- `data_handler::BATCH_SIZE`. -/
def BATCH_SIZE : Nat := 250

/-- `data_handler::FOREIGN_KEY_ERROR_CODE` (SQLite extended result code 787). -/
def FOREIGN_KEY_ERROR_CODE : Int := 787

/-- Outcome of executing the prepared INSERT statement on one row, as the
code classifies `rusqlite` results: success, a `SqliteFailure` whose code is
`ConstraintViolation` (carrying the extended result code and
`err.to_string()`), or any other error. -/
inductive ExecResult
  | ok
  | constraintViolation (extendedCode : Int) (message : String)
  | otherError (message : String)
deriving DecidableEq

/-- The storage engine's row-insertion classifier (§6 of the spec: "a way to
distinguish a foreign-key-constraint-violation error from all other
errors").  The code branches only on this classification. -/
abbrev Engine := List (Option String) → ExecResult

/-- Committed SQLite state: created tables (name ↦ CREATE statement) and
committed rows (table name paired with the bound parameter values). -/
structure Database where
  tables : List (String × String)
  rows : List (String × List (Option String))
deriving DecidableEq

/-- `data_handler::ErrorDetails`. -/
structure ErrorDetails where
  file_id : String
  table_name : String
  message : String
  error_message : String
deriving DecidableEq

/-- `data_handler::ProcessingResults`. -/
structure ProcessingResults where
  processed : Nat
  errors : List ErrorDetails
deriving DecidableEq

/-- `files::FileMetadata` (the download URL and checksum fields play no role
in the loading engine and are omitted). -/
structure FileMetadata where
  id : String
  name : String
deriving DecidableEq

/-- The file-system collaborator (§6 of the spec): per file id, the decoded
descriptor text and the decoded record-data text. -/
structure Env where
  des : String → String
  dat : String → String

/-- `data_handler::DataHandler`; the SQLite connection is replaced by the
explicit `Database` state. -/
structure DataHandler where
  db : Database
  reference_file : Option FileMetadata
  reference_table_name : Option String
  reference_field : Option String
  is_initialized : Bool
  processed_files : List String
  errors : List ErrorDetails
deriving DecidableEq

/-- `DataHandler::new` on a fresh database file. -/
def DataHandler.new : DataHandler :=
  ⟨⟨[], []⟩, none, none, none, false, [], []⟩

/-- Rust `{:?}` rendering of one `Option<String>` value (the data fields are
plain ASCII, so no debug escaping arises). -/
def debugOptString : Option String → String
  | some s => "Some(\"" ++ s ++ "\")"
  | none => "None"

/-- Rust `{:?}` rendering of the bound values vector. -/
def debugValues (values : List (Option String)) : String :=
  "[" ++ String.intercalate ", " (values.map debugOptString) ++ "]"

/-- The human-readable message built by `commit_batch` for a foreign key
violation. -/
def fkMessage (table_name : String) (file : FileMetadata) (line_number : Nat)
    (values : List (Option String)) : String :=
  "Foreign key violation inserting into " ++ table_name ++ "\n  File: " ++ file.id ++
    " (" ++ file.name ++ ")\n  Line: " ++ toString line_number ++ "\n  Values: " ++
    debugValues values

/-! ### src/data_handler.rs — commit_batch -/

/-- The statement-execution loop of `DataHandler::commit_batch`, threading
the rows inserted so far in the open transaction (`pending`) and the
collected foreign-key errors.  A foreign-key constraint violation (extended
code 787) records an `ErrorDetails` and continues; any other constraint
violation or error aborts with `Except.error`. -/
def commitBatchLoop (eng : Engine) (file : FileMetadata) (table_name : String) :
    List (List (Option String) × Nat) → List (List (Option String)) → List ErrorDetails →
    Except String (List (List (Option String)) × List ErrorDetails)
  | [], pending, errs => .ok (pending, errs)
  | (values, line_number) :: rest, pending, errs =>
    match eng values with
    | .ok => commitBatchLoop eng file table_name rest (pending ++ [values]) errs
    | .constraintViolation ext msg =>
      if ext = FOREIGN_KEY_ERROR_CODE then
        commitBatchLoop eng file table_name rest pending
          (errs ++ [⟨file.id, table_name, fkMessage table_name file line_number values, msg⟩])
      else .error msg
    | .otherError msg =>
      .error ("Failed to insert record at line " ++ toString line_number ++ ": " ++ msg)

/-- `DataHandler::commit_batch`: run the loop inside one transaction; on
success the transaction commits (the pending rows join the committed state),
on a fatal error the transaction is dropped without commit, leaving the
database unchanged. -/
def commit_batch (eng : Engine) (db : Database) (file : FileMetadata) (table_name : String)
    (batch : List (List (Option String) × Nat)) :
    Database × Except String (List ErrorDetails) :=
  match commitBatchLoop eng file table_name batch [] [] with
  | .error e => (db, .error e)
  | .ok (pending, errs) =>
    ({ db with rows := db.rows ++ pending.map fun v => (table_name, v) }, .ok errs)

/-! ### src/data_handler.rs — insert_records_for_file -/

/-- The bound parameter vector for one decoded record:
`columns.iter().map(|c| record.get(c).cloned().unwrap_or(None))`. -/
def rowValues (columns : List String) (record : List (String × Option String)) :
    List (Option String) :=
  columns.map fun c => ((record.find? fun p => p.1 == c).map Prod.snd).getD none

/-- The record stream of `DataParser::parse` / `RecordIterator`: every
non-blank line of the DAT text, decoded by `parse_line`. -/
def recordsOf (schema : List (String × FieldDefinition)) (content : String) :
    List (List (String × Option String)) :=
  ((rustLines content).filter fun l => !(trimChars l).isEmpty).map (parse_line schema)

/-- The record loop of `DataHandler::insert_records_for_file`: push each
record's values into the current batch, flush via `commit_batch` whenever
the batch reaches `BATCH_SIZE`, flush the final partial batch, and thread
the processed count and the local error list exactly as the source does. -/
def insertLoop (eng : Engine) (file : FileMetadata) (table_name : String)
    (columns : List String) :
    List (List (String × Option String)) → Database →
    List (List (Option String) × Nat) → Nat → Nat → List ErrorDetails →
    Database × Except String (Nat × List ErrorDetails)
  | [], db, batch, _, processed, local_errors =>
    if batch.isEmpty then (db, .ok (processed, local_errors))
    else
      match commit_batch eng db file table_name batch with
      | (db', .error e) => (db', .error e)
      | (db', .ok batch_errors) =>
        (db', .ok (processed + batch.length, local_errors ++ batch_errors))
  | record :: rest, db, batch, line_number, processed, local_errors =>
    let values := rowValues columns record
    let batch' := batch ++ [(values, line_number + 1)]
    if BATCH_SIZE ≤ batch'.length then
      match commit_batch eng db file table_name batch' with
      | (db', .error e) => (db', .error e)
      | (db', .ok batch_errors) =>
        insertLoop eng file table_name columns rest db' [] (line_number + 1)
          (processed + batch'.length) (local_errors ++ batch_errors)
    else
      insertLoop eng file table_name columns rest db batch' (line_number + 1)
        processed local_errors

/-- `DataHandler::insert_records_for_file`.  On success the local errors are
appended to the handler's cumulative `errors` vector; on a propagated fatal
error the handler keeps the database state reached so far and the local
errors are dropped (the source's `self.errors.extend` is only reached on the
success path). -/
def insert_records_for_file (eng : Engine) (env : Env) (h : DataHandler)
    (file : FileMetadata) : DataHandler × Except String ProcessingResults :=
  let table_name := to_snake_case file.name
  match parse_content (env.des file.id) with
  | .error e => (h, .error e)
  | .ok schema =>
    let columns := schema.map Prod.fst
    let records := recordsOf schema (env.dat file.id)
    match insertLoop eng file table_name columns records h.db [] 0 0 [] with
    | (db', .error e) => ({ h with db := db' }, .error e)
    | (db', .ok (processed, local_errors)) =>
      ({ h with db := db', errors := h.errors ++ local_errors },
       .ok ⟨processed, local_errors⟩)

/-! ### src/data_handler.rs — create_table_for_file, process_file, init -/

/-- `data_handler::map_type_to_sqlite`. -/
def map_type_to_sqlite (field_type : String) : String :=
  if field_type = "DECIMAL" then "REAL" else "TEXT"

/-- `CREATE TABLE IF NOT EXISTS`: a no-op when the table already exists. -/
def execCreateTable (db : Database) (table_name sql : String) : Database :=
  if containsKey db.tables table_name then db
  else { db with tables := db.tables ++ [(table_name, sql)] }

/-- `DataHandler::create_table_for_file`. -/
def create_table_for_file (env : Env) (h : DataHandler) (file : FileMetadata) :
    Database × Except String String :=
  let table_name := to_snake_case file.name
  match parse_content (env.des file.id) with
  | .error e => (h.db, .error e)
  | .ok schema =>
    match get_primary_key_field schema with
    | none => (h.db, .error ("Table " ++ table_name ++ " does not contain an expected key field"))
    | some primary_key =>
      let columns := schema.map fun p => p.1 ++ " " ++ map_type_to_sqlite p.2.field_type
      if some table_name = h.reference_table_name then
        let sql_parts := columns ++ ["PRIMARY KEY (" ++ primary_key ++ ")"]
        (execCreateTable h.db table_name
          ("CREATE TABLE IF NOT EXISTS " ++ table_name ++ " (" ++
            String.intercalate ", " sql_parts ++ ")"),
         .ok table_name)
      else
        match h.reference_table_name with
        | none => (h.db, .error "Cannot create table: handler not initialized with reference table")
        | some reference_table =>
          match h.reference_field with
          | none => (h.db, .error "Cannot create table: reference field not set")
          | some reference_field =>
            let sql_parts := columns ++
              ["FOREIGN KEY (" ++ primary_key ++ ") REFERENCES " ++ reference_table ++
                "(" ++ reference_field ++ ")"]
            (execCreateTable h.db table_name
              ("CREATE TABLE IF NOT EXISTS " ++ table_name ++ " (" ++
                String.intercalate ", " sql_parts ++ ")"),
             .ok table_name)

/-- `DataHandler::process_file`: requires initialization, skips an already
processed file with `Ok(None)`, otherwise creates the table, inserts the
records and marks the file processed. -/
def process_file (eng : Engine) (env : Env) (h : DataHandler) (file : FileMetadata) :
    DataHandler × Except String (Option ProcessingResults) :=
  if !h.is_initialized then (h, .error "DataHandler is not initialized")
  else if file.id ∈ h.processed_files then (h, .ok none)
  else
    match create_table_for_file env h file with
    | (db', .error e) => ({ h with db := db' }, .error e)
    | (db', .ok _) =>
      match insert_records_for_file eng env { h with db := db' } file with
      | (h', .error e) => (h', .error e)
      | (h', .ok results) =>
        ({ h' with processed_files := h'.processed_files ++ [file.id] }, .ok (some results))

/-- `DataHandler::init`: resolve the reference file's primary key, set the
reference binding, mark the handler initialized, then fully process the
reference file; a skipped (`Ok(None)`) result is turned into the
"Failed to process reference file" error.  The source performs no
already-initialized check before overwriting the binding. -/
def init (eng : Engine) (env : Env) (h : DataHandler) (reference_file : FileMetadata) :
    DataHandler × Except String ProcessingResults :=
  let reference_table_name := to_snake_case reference_file.name
  match parse_content (env.des reference_file.id) with
  | .error e => (h, .error e)
  | .ok schema =>
    match get_primary_key_field schema with
    | none =>
      (h, .error ("Reference table " ++ reference_table_name ++
        " does not contain an expected key field"))
    | some reference_field =>
      let h₁ : DataHandler := { h with
        reference_file := some reference_file
        reference_table_name := some reference_table_name
        reference_field := some reference_field
        is_initialized := true }
      match process_file eng env h₁ reference_file with
      | (h', .error e) => (h', .error e)
      | (h', .ok none) => (h', .error "Failed to process reference file")
      | (h', .ok (some results)) => (h', .ok results)

/-- Sequential driver: process a list of files on one handler, collecting
the per-file error lists in processing order (a skipped file contributes an
empty list). -/
def processAll (eng : Engine) (env : Env) :
    DataHandler → List FileMetadata → DataHandler × Except String (List (List ErrorDetails))
  | h, [] => (h, .ok [])
  | h, f :: fs =>
    match process_file eng env h f with
    | (h', .error e) => (h', .error e)
    | (h', .ok none) =>
      match processAll eng env h' fs with
      | (h'', .error e) => (h'', .error e)
      | (h'', .ok errss) => (h'', .ok ([] :: errss))
    | (h', .ok (some r)) =>
      match processAll eng env h' fs with
      | (h'', .error e) => (h'', .error e)
      | (h'', .ok errss) => (h'', .ok (r.errors :: errss))

/-! ### Classification helpers used in the theorem statements -/

/-- Successful row insertion. -/
def isOkExec : ExecResult → Bool
  | .ok => true
  | _ => false

/-- A foreign-key constraint violation: a constraint failure with extended
result code 787. -/
def isFk787 : ExecResult → Bool
  | .constraintViolation ext _ => ext == FOREIGN_KEY_ERROR_CODE
  | _ => false

/-- A fatal database error: anything that is neither success nor a
foreign-key constraint violation. -/
def isFatal (r : ExecResult) : Bool := !(isOkExec r || isFk787 r)

/-- The message carried by an error classification. -/
def execMessage : ExecResult → String
  | .ok => ""
  | .constraintViolation _ m => m
  | .otherError m => m

/-- Pair each row of a stream with its 1-based line number, starting after
`ln` lines already consumed. -/
def numbered (ln : Nat) : List (List (Option String)) → List (List (Option String) × Nat)
  | [] => []
  | v :: vs => (v, ln + 1) :: numbered (ln + 1) vs

/-- The rows a flushed batch commits: exactly its successfully executed rows. -/
def flushedRows (eng : Engine) (items : List (List (Option String) × Nat)) :
    List (List (Option String)) :=
  (items.map Prod.fst).filter fun v => isOkExec (eng v)

/-- The `ErrorDetails` a flushed batch records: one per foreign-key-violating
row, in row order. -/
def flushedErrors (eng : Engine) (file : FileMetadata) (table_name : String)
    (items : List (List (Option String) × Nat)) : List ErrorDetails :=
  (items.filter fun p => isFk787 (eng p.1)).map fun p =>
    ⟨file.id, table_name, fkMessage table_name file p.2 p.1, execMessage (eng p.1)⟩

/-- The parameter vectors a file's data produces, in stream order. -/
def fileRows (env : Env) (schema : List (String × FieldDefinition)) (file : FileMetadata) :
    List (List (Option String)) :=
  (recordsOf schema (env.dat file.id)).map (rowValues (schema.map Prod.fst))

/-- Number of committed rows of one table. -/
def tableRowCount (db : Database) (table_name : String) : Nat :=
  (db.rows.filter fun p => p.1 == table_name).length

/-! ### Concrete fixtures used by the witness theorems -/

/-- A one-field descriptor and a three-row data file, served for every id. -/
def wEnv : Env := ⟨fun _ => "CMDORNUM  ID  CHAR  1  4", fun _ => "0001\n9999\n0002"⟩

/-- The schema that `wEnv`'s descriptor parses to. -/
def wSch : List (String × FieldDefinition) := [("CMDORNUM", ⟨"CHAR", 1, 4, "ID"⟩)]

/-- A dependent file. -/
def wFile : FileMetadata := ⟨"DEP1", "Dep File"⟩

/-- A second file, used as an alternative reference file. -/
def wFileB : FileMetadata := ⟨"REFB", "Ref B"⟩

/-- Engine where the row `9999` violates the foreign key and every other row
succeeds. -/
def wEngFk : Engine := fun vs =>
  if vs = [some "9999"] then .constraintViolation 787 "FOREIGN KEY constraint failed"
  else .ok

/-- Engine where the row `9999` hits a fatal (non-foreign-key) storage error. -/
def wEngFatal : Engine := fun vs =>
  if vs = [some "9999"] then .otherError "disk I/O error" else .ok

/-- Engine that always succeeds. -/
def wEngOk : Engine := fun _ => .ok

/-- An initialized handler bound to a reference table. -/
def wHand : DataHandler :=
  { DataHandler.new with
      is_initialized := true
      reference_table_name := some "ref_table"
      reference_field := some "CMDORNUM" }

/-! ## Helper lemmas -/

theorem allQuestionMarks_eq_true_iff (s : Str) :
    allQuestionMarks s = true ↔ (1 ≤ s.length ∧ ∀ c ∈ s, c = '?') := by
  cases s with
  | nil => simp [allQuestionMarks]
  | cons c cs => simp [allQuestionMarks, Nat.succ_le_succ_iff]

theorem containsKey_append (a b : List (String × α)) (k : String) :
    containsKey (a ++ b) k = (containsKey a k || containsKey b k) := by
  simp [containsKey, List.any_append]

theorem containsKey_insertR (m : List (String × α)) (k k' : String) (v : α) :
    containsKey (insertR m k v) k' = (containsKey m k' || k == k') := by
  induction m with
  | nil => simp [insertR, containsKey]
  | cons p rest ih =>
    by_cases h : p.1 == k
    · have hk : p.1 = k := by simpa using h
      simp [insertR, containsKey, hk]
      by_cases h' : k = k' <;> simp [h']
    · cases p with
      | mk pk pv =>
        have h' : (pk == k) = false := by simpa using h
        have hstep : insertR ((pk, pv) :: rest) k v = (pk, pv) :: insertR rest k v := by
          simp [insertR, h']
        rw [hstep]
        have e1 : containsKey ((pk, pv) :: insertR rest k v) k'
            = (pk == k' || containsKey (insertR rest k v) k') := by
          simp [containsKey]
        have e2 : containsKey ((pk, pv) :: rest) k' = (pk == k' || containsKey rest k') := by
          simp [containsKey]
        rw [e1, e2, ih, Bool.or_assoc]

theorem insertR_of_not_contains (m : List (String × α)) (k : String) (v : α)
    (h : containsKey m k = false) : insertR m k v = m ++ [(k, v)] := by
  induction m with
  | nil => simp [insertR]
  | cons p rest ih =>
    simp only [containsKey, List.any_cons, Bool.or_eq_false_iff] at h
    simp [insertR, h.1, ih (by simp [containsKey, h.2])]

theorem parse_line_foldl_contains (g : String × FieldDefinition → Option String)
    (schema : List (String × FieldDefinition)) (record : List (String × Option String))
    (k : String) :
    containsKey (schema.foldl (fun r p => insertR r p.1 (g p)) record) k
      = (containsKey record k || containsKey schema k) := by
  induction schema generalizing record with
  | nil => simp [containsKey]
  | cons p rest ih =>
    simp only [List.foldl_cons, ih, containsKey_insertR]
    simp [containsKey, Bool.or_assoc]

theorem parse_line_foldl_keys (g : String × FieldDefinition → Option String)
    (schema : List (String × FieldDefinition)) (record : List (String × Option String))
    (hfresh : ∀ k ∈ schema.map Prod.fst, containsKey record k = false)
    (hnodup : (schema.map Prod.fst).Nodup) :
    (schema.foldl (fun r p => insertR r p.1 (g p)) record).map Prod.fst
      = record.map Prod.fst ++ schema.map Prod.fst := by
  induction schema generalizing record with
  | nil => simp
  | cons p rest ih =>
    have hp : containsKey record p.1 = false := hfresh p.1 (by simp)
    have hnd := hnodup
    simp only [List.map_cons, List.nodup_cons] at hnd
    have hstep : insertR record p.1 (g p) = record ++ [(p.1, g p)] :=
      insertR_of_not_contains _ _ _ hp
    have hfresh' : ∀ k ∈ rest.map Prod.fst, containsKey (record ++ [(p.1, g p)]) k = false := by
      intro k hk
      have h1 : containsKey record k = false :=
        hfresh k (by simp only [List.map_cons, List.mem_cons]; exact Or.inr hk)
      have h2 : p.1 ≠ k := by
        intro he; exact hnd.1 (he ▸ hk)
      rw [containsKey_append]
      simp only [Bool.or_eq_false_iff]
      exact ⟨h1, by simp [containsKey, h2]⟩
    have := ih (record ++ [(p.1, g p)]) hfresh' hnd.2
    simp only [List.foldl_cons, hstep, this, List.map_append, List.map_cons, List.map_nil]
    simp

/-! ## Claims -/

/-- C5: `get_primary_key_field` returns the first candidate of the fixed
ordered list CMDORNUM, CIDORNUM, CDDORNUM present as a key of the schema
(first match wins, even when several candidates are present), returns `none`
exactly when no candidate is present, and the `none` outcome is surfaced by
the loader (`create_table_for_file`) as the missing-key error. -/
theorem c5_primary_key_resolution (schema : List (String × FieldDefinition)) :
    (containsKey schema "CMDORNUM" = true →
      get_primary_key_field schema = some "CMDORNUM") ∧
    (containsKey schema "CMDORNUM" = false → containsKey schema "CIDORNUM" = true →
      get_primary_key_field schema = some "CIDORNUM") ∧
    (containsKey schema "CMDORNUM" = false → containsKey schema "CIDORNUM" = false →
      containsKey schema "CDDORNUM" = true →
      get_primary_key_field schema = some "CDDORNUM") ∧
    (get_primary_key_field schema = none ↔
      ∀ k ∈ KEY_CANDIDATES, containsKey schema k = false) ∧
    (∀ (env : Env) (h : DataHandler) (file : FileMetadata),
      parse_content (env.des file.id) = .ok schema →
      get_primary_key_field schema = none →
      (create_table_for_file env h file).2 =
        .error ("Table " ++ to_snake_case file.name ++
          " does not contain an expected key field")) := by
  refine ⟨?_, ?_, ?_, ?_, ?_⟩
  · intro h1
    simp [get_primary_key_field, KEY_CANDIDATES, List.find?, h1]
  · intro h1 h2
    simp [get_primary_key_field, KEY_CANDIDATES, List.find?, h1, h2]
  · intro h1 h2 h3
    simp [get_primary_key_field, KEY_CANDIDATES, List.find?, h1, h2, h3]
  · constructor
    · intro hn k hk
      rcases List.find?_eq_none.mp (by simpa [get_primary_key_field] using hn) k hk
        with h
      simpa using h
    · intro hall
      apply List.find?_eq_none.mpr
      intro k hk
      simp [hall k hk]
  · intro env h file hdes hnone
    simp [create_table_for_file, hdes, hnone]

/-- C5 witness: on a schema containing all three candidates the first one
wins. -/
theorem c5_witness :
    get_primary_key_field
      [("CDDORNUM", FieldDefinition.mk "CHAR" 1 1 ""),
       ("CMDORNUM", FieldDefinition.mk "CHAR" 2 1 ""),
       ("CIDORNUM", FieldDefinition.mk "CHAR" 3 1 "")] = some "CMDORNUM" :=
  (c5_primary_key_resolution _).1 (by decide)

/-- C6: value coercion trims, then maps the empty string, the sentinel date
`0001-01-01` and all-question-mark strings to null, and keeps every other
trimmed value; in particular on the five sample inputs of the spec. -/
theorem c6_value_coercion :
    (∀ raw : Str, coerce_value raw = coerceSpec raw) ∧
    coerce_value " 123 ".data = some "123" ∧
    coerce_value "".data = none ∧
    coerce_value "0001-01-01".data = none ∧
    coerce_value "???".data = none ∧
    coerce_value "wh?t".data = some "wh?t" := by
  refine ⟨fun raw => ?_, by decide, by decide, by decide, by decide, by decide⟩
  unfold coerce_value coerceSpec
  by_cases h0 : trimChars raw = []
  · simp [h0]
  · have h0' : (trimChars raw).isEmpty = false := by
      simpa [List.isEmpty_iff] using h0
    by_cases h1 : trimChars raw = NULL_DATE_MARKER
    · simp [h0, h0', h1, NULL_DATE_MARKER]
    · have h1' : trimChars raw ≠ "0001-01-01".data := h1
      by_cases h2 : allQuestionMarks (trimChars raw) = true
      · have hcond := (allQuestionMarks_eq_true_iff _).mp h2
        simp only [h0', Bool.false_eq_true, if_false, h2, if_true]
        rw [if_neg h1, if_neg h0, if_neg h1', if_pos hcond]
      · have h2' : ¬(1 ≤ (trimChars raw).length ∧ ∀ c ∈ trimChars raw, c = '?') := by
          intro hc
          exact h2 ((allQuestionMarks_eq_true_iff _).mpr hc)
        simp [h0, h0', h1, h1', h2, h2']

/-- C7: field extraction takes the byte slice `[start-1, start-1+length)`:
an empty raw value when the line ends before `start-1`, the available
suffix when the line ends inside the slice, and the full slice otherwise. -/
theorem c7_field_slicing (line : Str) (fd : FieldDefinition) :
    (line.length < fd.start - 1 → extract_raw line fd = []) ∧
    (fd.start - 1 < line.length → line.length < fd.start - 1 + fd.length →
      extract_raw line fd = line.drop (fd.start - 1)) ∧
    (fd.start - 1 + fd.length ≤ line.length →
      extract_raw line fd = (line.drop (fd.start - 1)).take fd.length) := by
  simp only [extract_raw]
  refine ⟨fun h => ?_, fun h1 h2 => ?_, fun h => ?_⟩
  · rw [if_neg (by omega), if_neg (by omega)]
  · rw [if_neg (by omega), if_pos h1]
  · rw [if_pos h]

/-- C7 witness: a line shorter than `start-1` yields the empty raw value. -/
theorem c7_witness :
    extract_raw "ab".data (FieldDefinition.mk "CHAR" 5 3 "d") = [] :=
  (c7_field_slicing "ab".data (FieldDefinition.mk "CHAR" 5 3 "d")).1 (by decide)

/-- C9: a decoded record's key set is exactly the schema's field-code set;
with the `HashMap` key-uniqueness invariant every schema code appears
exactly once and no foreign key appears. -/
theorem c9_record_keys (schema : List (String × FieldDefinition)) (line : Str) :
    (∀ k, containsKey (parse_line schema line) k = containsKey schema k) ∧
    ((schema.map Prod.fst).Nodup →
      (parse_line schema line).map Prod.fst = schema.map Prod.fst) := by
  constructor
  · intro k
    unfold parse_line
    rw [parse_line_foldl_contains (fun p => coerce_value (extract_raw line p.2))]
    simp [containsKey]
  · intro hnodup
    unfold parse_line
    rw [parse_line_foldl_keys (fun p => coerce_value (extract_raw line p.2)) schema []
      (by intro k _; simp [containsKey]) hnodup]
    simp

/-- C9 witness: on a two-field schema the decoded record's keys are the
schema's keys. -/
theorem c9_witness :
    (parse_line
      [("CMDORNUM", FieldDefinition.mk "CHAR" 1 4 ""),
       ("NAME", FieldDefinition.mk "CHAR" 5 4 "")] "01  ".data).map Prod.fst
      = ["CMDORNUM", "NAME"] :=
  (c9_record_keys _ _).2 (by decide)

theorem takeWhile_notWS_of_all_ws (s : Str) (h : s.all isWS = true) :
    s.takeWhile notWSCls = [] := by
  cases s with
  | nil => rfl
  | cons c cs =>
    have hc : c.isWhitespace = true := by
      simp only [List.all_cons, Bool.and_eq_true] at h
      exact h.1
    simp [List.takeWhile_cons, notWSCls, hc]

theorem desMatch_of_all_ws (s : Str) (h : s.all isWS = true) : desMatch s = none := by
  have ht : s.takeWhile notWSCls = [] := takeWhile_notWS_of_all_ws s h
  have hm : matchToks desToks s = none := by
    simp [desToks, matchToks, ht]
  simp [desMatch, hm]

theorem all_ws_of_trim_empty (l : Str) (h : (trimChars l).isEmpty = true) :
    l.all isWS = true := by
  rw [List.isEmpty_iff] at h
  unfold trimChars at h
  rw [List.reverse_eq_nil_iff] at h
  have h3 : ∀ x ∈ l.dropWhile isWS, isWS x = true := by
    intro x hx
    simpa using List.dropWhile_eq_nil_iff.mp h x (List.mem_reverse.mpr hx)
  rw [List.all_eq_true]
  intro x hx
  have hsplit : x ∈ l.takeWhile isWS ++ l.dropWhile isWS := by
    rw [List.takeWhile_append_dropWhile]; exact hx
  rcases List.mem_append.mp hsplit with h1 | h1
  · simpa using List.mem_takeWhile_imp h1
  · exact h3 x h1

theorem parseLinesAux_skip (bad : Str)
    (hbad : (trimChars (trimEndChars bad)).isEmpty = true ∨
      desMatch (trimEndChars bad) = none) :
    ∀ (pre : List Str) (schema : List (String × FieldDefinition)) (post : List Str),
      parseLinesAux schema (pre ++ bad :: post) = parseLinesAux schema (pre ++ post) := by
  intro pre
  induction pre with
  | nil =>
    intro schema post
    simp only [List.nil_append]
    by_cases hblank : (trimChars (trimEndChars bad)).isEmpty = true
    · simp only [parseLinesAux, hblank, if_true]
    · have hb : desMatch (trimEndChars bad) = none := by
        rcases hbad with h | h
        · exact absurd h hblank
        · exact h
      simp only [parseLinesAux, hblank, Bool.false_eq_true, if_false, hb]
  | cons p pre ih =>
    intro schema post
    simp only [List.cons_append]
    by_cases hblank : (trimChars (trimEndChars p)).isEmpty = true
    · simp only [parseLinesAux, hblank, if_true]
      exact ih schema post
    · cases hdm : desMatch (trimEndChars p) with
      | none =>
        simp only [parseLinesAux, hblank, Bool.false_eq_true, if_false, hdm]
        exact ih schema post
      | some caps =>
        cases hs : parseUsize caps.startTok with
        | none => simp only [parseLinesAux, hblank, Bool.false_eq_true, if_false, hdm, hs]
        | some st =>
          cases hl : parseUsize caps.lenTok with
          | none => simp only [parseLinesAux, hblank, Bool.false_eq_true, if_false, hdm, hs, hl]
          | some lenv =>
            simp only [parseLinesAux, hblank, Bool.false_eq_true, if_false, hdm, hs, hl]
            exact ih _ post

theorem parseLinesAux_error_iff (lines : List Str) :
    ∀ schema, (∃ e, parseLinesAux schema lines = .error e) ↔
      ∃ l ∈ lines, ∃ caps, desMatch (trimEndChars l) = some caps ∧
        (parseUsize caps.startTok = none ∨ parseUsize caps.lenTok = none) := by
  induction lines with
  | nil => intro schema; simp [parseLinesAux]
  | cons raw rest ih =>
    intro schema
    by_cases hblank : (trimChars (trimEndChars raw)).isEmpty = true
    · have hnone : desMatch (trimEndChars raw) = none :=
        desMatch_of_all_ws _ (all_ws_of_trim_empty _ hblank)
      simp only [parseLinesAux, hblank, if_true]
      rw [ih schema]
      constructor
      · rintro ⟨l, hl, hc⟩
        exact ⟨l, List.mem_cons_of_mem _ hl, hc⟩
      · rintro ⟨l, hl, caps, hcaps, hbadtok⟩
        rcases List.mem_cons.mp hl with he | hm
        · rw [he, hnone] at hcaps; cases hcaps
        · exact ⟨l, hm, caps, hcaps, hbadtok⟩
    · cases hdm : desMatch (trimEndChars raw) with
      | none =>
        simp only [parseLinesAux, hblank, Bool.false_eq_true, if_false, hdm]
        rw [ih schema]
        constructor
        · rintro ⟨l, hl, hc⟩
          exact ⟨l, List.mem_cons_of_mem _ hl, hc⟩
        · rintro ⟨l, hl, caps, hcaps, hbadtok⟩
          rcases List.mem_cons.mp hl with he | hm
          · rw [he, hdm] at hcaps; cases hcaps
          · exact ⟨l, hm, caps, hcaps, hbadtok⟩
      | some caps =>
        cases hs : parseUsize caps.startTok with
        | none =>
          simp only [parseLinesAux, hblank, Bool.false_eq_true, if_false, hdm, hs]
          constructor
          · intro _
            exact ⟨raw, List.mem_cons_self _ _, caps, hdm, Or.inl hs⟩
          · intro _
            exact ⟨_, rfl⟩
        | some st =>
          cases hl : parseUsize caps.lenTok with
          | none =>
            simp only [parseLinesAux, hblank, Bool.false_eq_true, if_false, hdm, hs, hl]
            constructor
            · intro _
              exact ⟨raw, List.mem_cons_self _ _, caps, hdm, Or.inr hl⟩
            · intro _
              exact ⟨_, rfl⟩
          | some lenv =>
            simp only [parseLinesAux, hblank, Bool.false_eq_true, if_false, hdm, hs, hl]
            rw [ih]
            constructor
            · rintro ⟨l, hl', hc⟩
              exact ⟨l, List.mem_cons_of_mem _ hl', hc⟩
            · rintro ⟨l, hl', caps', hcaps', hbadtok⟩
              rcases List.mem_cons.mp hl' with he | hm
              · rw [he, hdm] at hcaps'
                cases hcaps'
                rcases hbadtok with hb | hb
                · rw [hs] at hb; cases hb
                · rw [hl] at hb; cases hb
              · exact ⟨l, hm, caps', hcaps', hbadtok⟩

/-- C8: schema parsing silently skips blank lines and lines not matching the
DES field-definition pattern (they contribute no entry and no error), and it
fails exactly when a matched start or length token cannot be parsed as a
`usize`. -/
theorem c8_schema_parsing :
    (∀ (bad : Str),
      ((trimChars (trimEndChars bad)).isEmpty = true ∨
        desMatch (trimEndChars bad) = none) →
      ∀ (schema : List (String × FieldDefinition)) (pre post : List Str),
        parseLinesAux schema (pre ++ bad :: post) = parseLinesAux schema (pre ++ post)) ∧
    (∀ content : String,
      (∃ e, parse_content content = .error e) ↔
      ∃ l ∈ rustLines content, ∃ caps, desMatch (trimEndChars l) = some caps ∧
        (parseUsize caps.startTok = none ∨ parseUsize caps.lenTok = none)) := by
  constructor
  · intro bad hbad schema pre post
    exact parseLinesAux_skip bad hbad pre schema post
  · intro content
    exact parseLinesAux_error_iff (rustLines content) []

/-- C8 witness: a non-matching line is skipped with no effect on the parsed
schema. -/
theorem c8_witness :
    parseLinesAux [] (["CMDORNUM  X  CHAR  1  7".data] ++
      "not a schema line".data :: []) =
    parseLinesAux [] (["CMDORNUM  X  CHAR  1  7".data] ++ []) :=
  c8_schema_parsing.1 "not a schema line".data (by right; decide)
    [] ["CMDORNUM  X  CHAR  1  7".data] []

theorem flushedRows_append (eng : Engine) (a b : List (List (Option String) × Nat)) :
    flushedRows eng (a ++ b) = flushedRows eng a ++ flushedRows eng b := by
  simp [flushedRows, List.filter_append]

theorem flushedErrors_append (eng : Engine) (file : FileMetadata) (tn : String)
    (a b : List (List (Option String) × Nat)) :
    flushedErrors eng file tn (a ++ b) =
      flushedErrors eng file tn a ++ flushedErrors eng file tn b := by
  simp [flushedErrors, List.filter_append]

theorem commitBatchLoop_ok (eng : Engine) (file : FileMetadata) (tn : String)
    (items : List (List (Option String) × Nat)) :
    ∀ pending errs,
    (∀ p ∈ items, isOkExec (eng p.1) = true ∨ isFk787 (eng p.1) = true) →
    commitBatchLoop eng file tn items pending errs =
      .ok (pending ++ flushedRows eng items, errs ++ flushedErrors eng file tn items) := by
  induction items with
  | nil =>
    intro pending errs _
    simp [commitBatchLoop, flushedRows, flushedErrors]
  | cons q rest ih =>
    intro pending errs hall
    obtain ⟨values, ln⟩ := q
    have hq := hall (values, ln) (List.mem_cons_self _ _)
    have hrest := fun p hp => hall p (List.mem_cons_of_mem _ hp)
    cases he : eng values with
    | ok =>
      simp only [commitBatchLoop, he]
      rw [ih (pending ++ [values]) errs hrest]
      simp [flushedRows, flushedErrors, he, isOkExec, isFk787]
    | constraintViolation ext msg =>
      have h787 : ext = FOREIGN_KEY_ERROR_CODE := by
        rcases hq with hq | hq
        · rw [he] at hq; cases hq
        · rw [he] at hq; simpa [isFk787] using hq
      simp only [commitBatchLoop, he, h787, if_pos]
      rw [ih _ _ hrest]
      simp [flushedRows, flushedErrors, he, isOkExec, isFk787, h787, execMessage]
    | otherError msg =>
      exfalso
      rcases hq with hq | hq <;> rw [he] at hq <;> simp [isOkExec, isFk787] at hq

theorem commit_batch_ok (eng : Engine) (db : Database) (file : FileMetadata) (tn : String)
    (batch : List (List (Option String) × Nat))
    (hall : ∀ p ∈ batch, isOkExec (eng p.1) = true ∨ isFk787 (eng p.1) = true) :
    commit_batch eng db file tn batch =
      ({ db with rows := db.rows ++ (flushedRows eng batch).map (fun v => (tn, v)) },
       .ok (flushedErrors eng file tn batch)) := by
  unfold commit_batch
  rw [commitBatchLoop_ok eng file tn batch [] [] hall]
  simp

theorem insertLoop_ok (eng : Engine) (file : FileMetadata) (tn : String)
    (columns : List String) (records : List (List (String × Option String))) :
    ∀ (db : Database) (batch : List (List (Option String) × Nat))
      (ln processed : Nat) (errs : List ErrorDetails),
    (∀ p ∈ batch, isOkExec (eng p.1) = true ∨ isFk787 (eng p.1) = true) →
    (∀ r ∈ records, isOkExec (eng (rowValues columns r)) = true ∨
      isFk787 (eng (rowValues columns r)) = true) →
    insertLoop eng file tn columns records db batch ln processed errs =
      ({ db with rows := (db.rows ++
          ((flushedRows eng (batch ++ numbered ln (records.map (rowValues columns)))).map
            (fun v => (tn, v)))) },
       .ok (processed + batch.length + records.length,
            errs ++ flushedErrors eng file tn
              (batch ++ numbered ln (records.map (rowValues columns))))) := by
  induction records with
  | nil =>
    intro db batch ln processed errs hbatch _
    by_cases hb : batch.isEmpty
    · have hb' : batch = [] := by simpa [List.isEmpty_iff] using hb
      subst hb'
      simp [insertLoop, numbered, flushedRows, flushedErrors]
    · simp only [insertLoop, hb, Bool.false_eq_true, if_false]
      rw [commit_batch_ok eng db file tn batch hbatch]
      simp [numbered]
  | cons r rest ih =>
    intro db batch ln processed errs hbatch hrec
    have hr := hrec r (List.mem_cons_self _ _)
    have hrest := fun s hs => hrec s (List.mem_cons_of_mem _ hs)
    have hbatch' : ∀ p ∈ batch ++ [(rowValues columns r, ln + 1)],
        isOkExec (eng p.1) = true ∨ isFk787 (eng p.1) = true := by
      intro p hp
      rcases List.mem_append.mp hp with hm | hm
      · exact hbatch p hm
      · have : p = (rowValues columns r, ln + 1) := by simpa using hm
        rw [this]; exact hr
    have hkey : batch ++ numbered ln ((r :: rest).map (rowValues columns)) =
        (batch ++ [(rowValues columns r, ln + 1)]) ++
          numbered (ln + 1) (rest.map (rowValues columns)) := by
      simp [numbered, List.append_assoc]
    by_cases hflush : BATCH_SIZE ≤ (batch ++ [(rowValues columns r, ln + 1)]).length
    · simp only [insertLoop, hflush, if_true]
      simp only [commit_batch_ok eng db file tn _ hbatch']
      rw [ih _ [] (ln + 1)
        (processed + (batch ++ [(rowValues columns r, ln + 1)]).length)
        (errs ++ flushedErrors eng file tn (batch ++ [(rowValues columns r, ln + 1)]))
        (by intro p hp; cases hp) hrest]
      rw [hkey]
      simp only [Prod.mk.injEq, flushedRows_append, flushedErrors_append,
        List.map_append, List.append_assoc, List.length_append, List.length_cons,
        List.length_nil, Except.ok.injEq]
      refine ⟨?_, ?_, ?_⟩ <;> first | rfl | omega
    · simp only [insertLoop, hflush, if_false]
      rw [ih db (batch ++ [(rowValues columns r, ln + 1)]) (ln + 1) processed errs
        hbatch' hrest]
      rw [hkey]
      simp only [Prod.mk.injEq, List.length_append, List.length_cons, List.length_nil,
        Except.ok.injEq]
      refine ⟨?_, ?_, ?_⟩ <;> first | rfl | omega | simp [List.append_assoc]

theorem flushedRows_numbered (eng : Engine) (vs : List (List (Option String))) :
    ∀ ln, flushedRows eng (numbered ln vs) = vs.filter fun v => isOkExec (eng v) := by
  induction vs with
  | nil => intro ln; simp [numbered, flushedRows]
  | cons v vs ih =>
    intro ln
    have hx : flushedRows eng (numbered (ln + 1) vs) =
        vs.filter (fun v => isOkExec (eng v)) := ih (ln + 1)
    simp only [numbered, flushedRows, List.map_cons, List.filter_cons] at hx ⊢
    rw [hx]

theorem numbered_filter_fk_length (eng : Engine) (vs : List (List (Option String))) :
    ∀ ln, ((numbered ln vs).filter fun p => isFk787 (eng p.1)).length =
      (vs.filter fun v => isFk787 (eng v)).length := by
  induction vs with
  | nil => intro ln; simp [numbered]
  | cons v vs ih =>
    intro ln
    simp only [numbered, List.filter_cons]
    by_cases h : isFk787 (eng v) = true
    · simp [h, ih (ln + 1)]
    · simp only [Bool.not_eq_true] at h
      simp [h, ih (ln + 1)]

theorem flushedErrors_numbered_length (eng : Engine) (file : FileMetadata) (tn : String)
    (vs : List (List (Option String))) (ln : Nat) :
    (flushedErrors eng file tn (numbered ln vs)).length =
      (vs.filter fun v => isFk787 (eng v)).length := by
  unfold flushedErrors
  rw [List.length_map]
  exact numbered_filter_fk_length eng vs ln

theorem filter_ok_fk_length (eng : Engine) (vs : List (List (Option String)))
    (h : ∀ v ∈ vs, isOkExec (eng v) = true ∨ isFk787 (eng v) = true) :
    (vs.filter fun v => isOkExec (eng v)).length +
      (vs.filter fun v => isFk787 (eng v)).length = vs.length := by
  induction vs with
  | nil => simp
  | cons v vs ih =>
    have hv := h v (List.mem_cons_self _ _)
    have ih' := ih fun w hw => h w (List.mem_cons_of_mem _ hw)
    rcases hv with hv | hv
    · have hnk : isFk787 (eng v) = false := by
        cases he : eng v <;> simp [isOkExec, isFk787, he] at hv ⊢
      simp only [List.filter_cons, hv, if_true, hnk, Bool.false_eq_true, if_false,
        List.length_cons]
      omega
    · have hnk : isOkExec (eng v) = false := by
        cases he : eng v <;> simp [isOkExec, isFk787, he] at hv ⊢
      simp only [List.filter_cons, hv, if_true, hnk, Bool.false_eq_true, if_false,
        List.length_cons]
      omega

theorem tableRowCount_append_tagged (db : Database) (tn : String)
    (vs : List (List (Option String))) :
    tableRowCount { db with rows := (db.rows ++ vs.map (fun v => (tn, v))) } tn =
      tableRowCount db tn + vs.length := by
  have hall : (vs.map (fun v => (tn, v))).filter (fun p => p.1 == tn) =
      vs.map (fun v => (tn, v)) := by
    rw [List.filter_eq_self]
    intro p hp
    obtain ⟨v, _, rfl⟩ := List.mem_map.mp hp
    simp
  simp [tableRowCount, List.filter_append, hall]

/-- C1: on a file whose data yields N records of which exactly one row is
classified as a foreign-key constraint violation (and every other row
succeeds), `insert_records_for_file` does not abort: it returns
`Ok(ProcessingResults)` with `processed = N` and exactly one recorded
`ErrorDetails` carrying the file id, table name and the message built from
the line number, the attempted values, and the raw engine error; exactly
`N - 1` rows are committed to the table. -/
theorem c1_fk_violation_nonfatal (eng : Engine) (env : Env) (h : DataHandler)
    (file : FileMetadata) (schema : List (String × FieldDefinition))
    (hdes : parse_content (env.des file.id) = .ok schema)
    (hnf : ∀ v ∈ fileRows env schema file,
      isOkExec (eng v) = true ∨ isFk787 (eng v) = true)
    (hone : ((fileRows env schema file).filter fun v => isFk787 (eng v)).length = 1) :
    (insert_records_for_file eng env h file).2 =
      .ok ⟨(fileRows env schema file).length,
           flushedErrors eng file (to_snake_case file.name)
             (numbered 0 (fileRows env schema file))⟩ ∧
    (flushedErrors eng file (to_snake_case file.name)
       (numbered 0 (fileRows env schema file))).length = 1 ∧
    (∀ ed ∈ flushedErrors eng file (to_snake_case file.name)
        (numbered 0 (fileRows env schema file)),
      ed.file_id = file.id ∧ ed.table_name = to_snake_case file.name) ∧
    (insert_records_for_file eng env h file).1.db.rows =
      h.db.rows ++ (((fileRows env schema file).filter fun v => isOkExec (eng v)).map
        (fun v => (to_snake_case file.name, v))) ∧
    tableRowCount (insert_records_for_file eng env h file).1.db (to_snake_case file.name)
      = tableRowCount h.db (to_snake_case file.name) +
        ((fileRows env schema file).length - 1) ∧
    (insert_records_for_file eng env h file).1.errors =
      h.errors ++ flushedErrors eng file (to_snake_case file.name)
        (numbered 0 (fileRows env schema file)) := by
  have hrecnf : ∀ r ∈ recordsOf schema (env.dat file.id),
      isOkExec (eng (rowValues (schema.map Prod.fst) r)) = true ∨
        isFk787 (eng (rowValues (schema.map Prod.fst) r)) = true := by
    intro r hr
    exact hnf _ (List.mem_map_of_mem _ hr)
  have hloop := insertLoop_ok eng file (to_snake_case file.name) (schema.map Prod.fst)
    (recordsOf schema (env.dat file.id)) h.db [] 0 0 [] (by intro p hp; cases hp) hrecnf
  have hins : insert_records_for_file eng env h file =
      ({ h with
          db := { h.db with rows := (h.db.rows ++
            ((flushedRows eng (numbered 0 (fileRows env schema file))).map
              (fun v => (to_snake_case file.name, v)))) },
          errors := h.errors ++ flushedErrors eng file (to_snake_case file.name)
            (numbered 0 (fileRows env schema file)) },
       .ok ⟨(fileRows env schema file).length,
            flushedErrors eng file (to_snake_case file.name)
              (numbered 0 (fileRows env schema file))⟩) := by
    simp only [insert_records_for_file, hdes]
    simp only [hloop, List.nil_append, Nat.zero_add, List.length_nil, List.length_map,
      fileRows]
  have hokfk := filter_ok_fk_length eng (fileRows env schema file) hnf
  refine ⟨?_, ?_, ?_, ?_, ?_, ?_⟩
  · rw [hins]
  · rw [flushedErrors_numbered_length]; exact hone
  · intro ed hed
    unfold flushedErrors at hed
    obtain ⟨p, _, rfl⟩ := List.mem_map.mp hed
    exact ⟨rfl, rfl⟩
  · rw [hins]
    simp [flushedRows_numbered]
  · rw [hins]
    simp only [flushedRows_numbered]
    rw [tableRowCount_append_tagged]
    omega
  · rw [hins]

/-- C1 witness: a three-row file whose middle row violates the foreign key
is processed without aborting. -/
theorem c1_witness :
    (insert_records_for_file wEngFk wEnv DataHandler.new wFile).2 =
      .ok ⟨(fileRows wEnv wSch wFile).length,
           flushedErrors wEngFk wFile (to_snake_case wFile.name)
             (numbered 0 (fileRows wEnv wSch wFile))⟩ :=
  (c1_fk_violation_nonfatal wEngFk wEnv DataHandler.new wFile wSch (by rfl)
    (by decide) (by decide)).1

theorem commitBatchLoop_fatal (eng : Engine) (file : FileMetadata) (tn : String)
    (items : List (List (Option String) × Nat)) :
    ∀ pending errs, (∃ p ∈ items, isFatal (eng p.1) = true) →
    ∃ e, commitBatchLoop eng file tn items pending errs = .error e := by
  induction items with
  | nil =>
    rintro pending errs ⟨p, hp, _⟩
    cases hp
  | cons q rest ih =>
    rintro pending errs ⟨p, hp, hfatal⟩
    obtain ⟨values, ln⟩ := q
    cases he : eng values with
    | ok =>
      have hmem : p ∈ rest := by
        rcases List.mem_cons.mp hp with he' | hm
        · exfalso; rw [he'] at hfatal; simp [isFatal, isOkExec, isFk787, he] at hfatal
        · exact hm
      obtain ⟨e, hres⟩ := ih (pending ++ [values]) errs ⟨p, hmem, hfatal⟩
      exact ⟨e, by simp only [commitBatchLoop, he]; exact hres⟩
    | constraintViolation ext msg =>
      by_cases h787 : ext = FOREIGN_KEY_ERROR_CODE
      · have hmem : p ∈ rest := by
          rcases List.mem_cons.mp hp with he' | hm
          · exfalso; rw [he'] at hfatal
            simp [isFatal, isOkExec, isFk787, he, h787] at hfatal
          · exact hm
        obtain ⟨e, hres⟩ := ih pending
          (errs ++ [⟨file.id, tn, fkMessage tn file ln values, msg⟩]) ⟨p, hmem, hfatal⟩
        refine ⟨e, ?_⟩
        simp only [commitBatchLoop, he]
        rw [if_pos h787]
        exact hres
      · refine ⟨msg, ?_⟩
        simp only [commitBatchLoop, he]
        rw [if_neg h787]
    | otherError msg =>
      refine ⟨"Failed to insert record at line " ++ toString ln ++ ": " ++ msg, ?_⟩
      simp only [commitBatchLoop, he]

theorem commit_batch_fatal (eng : Engine) (db : Database) (file : FileMetadata)
    (tn : String) (batch : List (List (Option String) × Nat))
    (hfatal : ∃ p ∈ batch, isFatal (eng p.1) = true) :
    ∃ e, commit_batch eng db file tn batch = (db, .error e) := by
  obtain ⟨e, he⟩ := commitBatchLoop_fatal eng file tn batch [] [] hfatal
  exact ⟨e, by simp [commit_batch, he]⟩

theorem insertLoop_fatal (eng : Engine) (file : FileMetadata) (tn : String)
    (columns : List String) (records : List (List (String × Option String))) :
    ∀ (db : Database) (batch : List (List (Option String) × Nat))
      (ln processed : Nat) (errs : List ErrorDetails),
    ((∃ p ∈ batch, isFatal (eng p.1) = true) ∨
      (∃ v ∈ (records.map (rowValues columns)).take (BATCH_SIZE - batch.length),
        isFatal (eng v) = true)) →
    ∃ e, insertLoop eng file tn columns records db batch ln processed errs =
      (db, .error e) := by
  induction records with
  | nil =>
    intro db batch ln processed errs hyp
    have hfb : ∃ p ∈ batch, isFatal (eng p.1) = true := by
      rcases hyp with hf | ⟨v, hv, _⟩
      · exact hf
      · simp at hv
    have hne : batch.isEmpty = false := by
      obtain ⟨p, hp, _⟩ := hfb
      cases batch with
      | nil => cases hp
      | cons a l => rfl
    obtain ⟨e, hcb⟩ := commit_batch_fatal eng db file tn batch hfb
    refine ⟨e, ?_⟩
    simp only [insertLoop, hne, Bool.false_eq_true, if_false, hcb]
  | cons r rest ih =>
    intro db batch ln processed errs hyp
    by_cases hflush : BATCH_SIZE ≤ (batch ++ [(rowValues columns r, ln + 1)]).length
    · have hfb : ∃ p ∈ batch ++ [(rowValues columns r, ln + 1)],
          isFatal (eng p.1) = true := by
        rcases hyp with ⟨p, hp, hf⟩ | ⟨v, hv', hf⟩
        · exact ⟨p, List.mem_append_left _ hp, hf⟩
        · have hble : BATCH_SIZE - batch.length ≤ 1 := by
            simp only [List.length_append, List.length_cons, List.length_nil] at hflush
            omega
          have h01 : BATCH_SIZE - batch.length = 0 ∨ BATCH_SIZE - batch.length = 1 := by
            omega
          rcases h01 with h0 | h1
          · rw [h0] at hv'; simp at hv'
          · rw [h1] at hv'
            simp only [List.map_cons, List.take_succ_cons, List.take_zero] at hv'
            have hveq : v = rowValues columns r := by simpa using hv'
            refine ⟨(rowValues columns r, ln + 1), List.mem_append_right _ (by simp), ?_⟩
            rw [hveq] at hf
            simpa using hf
      obtain ⟨e, hcb⟩ := commit_batch_fatal eng db file tn _ hfb
      refine ⟨e, ?_⟩
      simp only [insertLoop, hflush, if_true, hcb]
    · have hyp' : (∃ p ∈ batch ++ [(rowValues columns r, ln + 1)],
          isFatal (eng p.1) = true) ∨
          (∃ v ∈ (rest.map (rowValues columns)).take
            (BATCH_SIZE - (batch ++ [(rowValues columns r, ln + 1)]).length),
            isFatal (eng v) = true) := by
        rcases hyp with ⟨p, hp, hf⟩ | ⟨v, hv', hf⟩
        · exact Or.inl ⟨p, List.mem_append_left _ hp, hf⟩
        · have hlt : batch.length + 1 < BATCH_SIZE := by
            simp only [List.length_append, List.length_cons, List.length_nil] at hflush
            omega
          have hsub : BATCH_SIZE - batch.length = (BATCH_SIZE - (batch.length + 1)) + 1 := by
            omega
          rw [hsub] at hv'
          simp only [List.map_cons, List.take_succ_cons] at hv'
          rcases List.mem_cons.mp hv' with he | hm
          · refine Or.inl ⟨(rowValues columns r, ln + 1),
              List.mem_append_right _ (by simp), ?_⟩
            rw [he] at hf
            simpa using hf
          · refine Or.inr ⟨v, ?_, hf⟩
            simpa [List.length_append] using hm
      obtain ⟨e, he⟩ := ih db (batch ++ [(rowValues columns r, ln + 1)]) (ln + 1)
        processed errs hyp'
      refine ⟨e, ?_⟩
      simp only [insertLoop, hflush, if_false]
      exact he

theorem numbered_append (a b : List (List (Option String))) :
    ∀ ln, numbered ln (a ++ b) = numbered ln a ++ numbered (ln + a.length) b := by
  induction a with
  | nil => intro ln; simp [numbered]
  | cons v vs ih =>
    intro ln
    simp only [List.cons_append, numbered, List.append_eq, List.length_cons]
    rw [ih (ln + 1)]
    have harith : ln + 1 + vs.length = ln + (vs.length + 1) := by omega
    rw [harith]

theorem insertLoop_chunk (eng : Engine) (file : FileMetadata) (tn : String)
    (columns : List String) :
    ∀ (chunk rest : List (List (String × Option String))) (db : Database)
      (batch : List (List (Option String) × Nat)) (ln processed : Nat)
      (errs : List ErrorDetails),
    batch.length + chunk.length = BATCH_SIZE → chunk ≠ [] →
    (∀ p ∈ batch, isOkExec (eng p.1) = true ∨ isFk787 (eng p.1) = true) →
    (∀ r ∈ chunk, isOkExec (eng (rowValues columns r)) = true ∨
      isFk787 (eng (rowValues columns r)) = true) →
    insertLoop eng file tn columns (chunk ++ rest) db batch ln processed errs =
      insertLoop eng file tn columns rest
        ({ db with rows := (db.rows ++
          ((flushedRows eng (batch ++ numbered ln (chunk.map (rowValues columns)))).map
            (fun v => (tn, v)))) })
        [] (ln + chunk.length) (processed + BATCH_SIZE)
        (errs ++ flushedErrors eng file tn
          (batch ++ numbered ln (chunk.map (rowValues columns)))) := by
  intro chunk
  induction chunk with
  | nil =>
    intro rest db batch ln processed errs hlen hne _ _
    exact absurd rfl hne
  | cons r ctail ih =>
    intro rest db batch ln processed errs hlen hne hbatch hchunk
    have hr := hchunk r (List.mem_cons_self _ _)
    have hctail := fun s hs => hchunk s (List.mem_cons_of_mem _ hs)
    have hbatch' : ∀ p ∈ batch ++ [(rowValues columns r, ln + 1)],
        isOkExec (eng p.1) = true ∨ isFk787 (eng p.1) = true := by
      intro p hp
      rcases List.mem_append.mp hp with hm | hm
      · exact hbatch p hm
      · have hpe : p = (rowValues columns r, ln + 1) := by simpa using hm
        rw [hpe]; exact hr
    have hkey : batch ++ numbered ln ((r :: ctail).map (rowValues columns)) =
        (batch ++ [(rowValues columns r, ln + 1)]) ++
          numbered (ln + 1) (ctail.map (rowValues columns)) := by
      simp [numbered, List.append_assoc]
    by_cases hct : ctail = []
    · subst hct
      have hlen1 : batch.length + 1 = BATCH_SIZE := by simpa using hlen
      have hflush : BATCH_SIZE ≤ (batch ++ [(rowValues columns r, ln + 1)]).length := by
        simp only [List.length_append, List.length_cons, List.length_nil]
        omega
      simp only [List.cons_append, List.nil_append, insertLoop, hflush, if_true]
      simp only [commit_batch_ok eng db file tn _ hbatch']
      have hlenB : (batch ++ [(rowValues columns r, ln + 1)]).length = BATCH_SIZE := by
        simp only [List.length_append, List.length_cons, List.length_nil]
        omega
      rw [hlenB]
      simp [numbered]
    · have hct1 : 1 ≤ ctail.length := by
        cases ctail with
        | nil => exact absurd rfl hct
        | cons a l => simp
      have hlen' : ctail.length + (batch.length + 1) = BATCH_SIZE := by
        simp only [List.length_cons] at hlen
        omega
      have hnoflush : ¬BATCH_SIZE ≤ (batch ++ [(rowValues columns r, ln + 1)]).length := by
        simp only [List.length_append, List.length_cons, List.length_nil]
        omega
      simp only [List.cons_append, insertLoop, hnoflush, if_false, List.append_eq]
      rw [ih rest db (batch ++ [(rowValues columns r, ln + 1)]) (ln + 1) processed errs
        (by simp only [List.length_append, List.length_cons, List.length_nil]; omega)
        hct hbatch' hctail]
      rw [hkey]
      have harith : ln + 1 + ctail.length = ln + (r :: ctail).length := by
        simp only [List.length_cons]
        omega
      rw [harith]

theorem insertLoop_chunks (eng : Engine) (file : FileMetadata) (tn : String)
    (columns : List String) :
    ∀ (k : Nat) (recs rest : List (List (String × Option String))) (db : Database)
      (ln processed : Nat) (errs : List ErrorDetails),
    recs.length = BATCH_SIZE * k →
    (∀ r ∈ recs, isOkExec (eng (rowValues columns r)) = true ∨
      isFk787 (eng (rowValues columns r)) = true) →
    insertLoop eng file tn columns (recs ++ rest) db [] ln processed errs =
      insertLoop eng file tn columns rest
        ({ db with rows := (db.rows ++
          ((flushedRows eng (numbered ln (recs.map (rowValues columns)))).map
            (fun v => (tn, v)))) })
        [] (ln + recs.length) (processed + recs.length)
        (errs ++ flushedErrors eng file tn (numbered ln (recs.map (rowValues columns)))) := by
  intro k
  induction k with
  | zero =>
    intro recs rest db ln processed errs hlen _
    have hnil : recs = [] := by
      cases recs with
      | nil => rfl
      | cons a l => simp [BATCH_SIZE] at hlen
    subst hnil
    simp [numbered, flushedRows, flushedErrors]
  | succ k ihk =>
    intro recs rest db ln processed errs hlen hnf
    have hble : BATCH_SIZE ≤ recs.length := by
      rw [hlen]
      have : BATCH_SIZE * (k + 1) = BATCH_SIZE * k + BATCH_SIZE := by ring
      omega
    have hcr : recs.take BATCH_SIZE ++ recs.drop BATCH_SIZE = recs :=
      List.take_append_drop _ _
    have hclen : (recs.take BATCH_SIZE).length = BATCH_SIZE := by
      rw [List.length_take]
      omega
    have hcne : recs.take BATCH_SIZE ≠ [] := by
      intro hnil
      rw [hnil] at hclen
      simp [BATCH_SIZE] at hclen
    have hdlen : (recs.drop BATCH_SIZE).length = BATCH_SIZE * k := by
      rw [List.length_drop, hlen]
      have : BATCH_SIZE * (k + 1) = BATCH_SIZE * k + BATCH_SIZE := by ring
      omega
    have htake_nf : ∀ r ∈ recs.take BATCH_SIZE,
        isOkExec (eng (rowValues columns r)) = true ∨
          isFk787 (eng (rowValues columns r)) = true :=
      fun r hr => hnf r (List.mem_of_mem_take hr)
    have hdrop_nf : ∀ r ∈ recs.drop BATCH_SIZE,
        isOkExec (eng (rowValues columns r)) = true ∨
          isFk787 (eng (rowValues columns r)) = true :=
      fun r hr => hnf r (List.mem_of_mem_drop hr)
    conv_lhs => rw [← hcr, List.append_assoc]
    rw [insertLoop_chunk eng file tn columns (recs.take BATCH_SIZE)
      (recs.drop BATCH_SIZE ++ rest) db [] ln processed errs
      (by simpa using hclen) hcne (by intro p hp; cases hp) htake_nf]
    rw [ihk (recs.drop BATCH_SIZE) rest _ (ln + (recs.take BATCH_SIZE).length)
      (processed + BATCH_SIZE) _ hdlen hdrop_nf]
    conv_rhs => rw [← hcr]
    simp only [List.nil_append, List.map_append, numbered_append, List.length_map,
      flushedRows_append, flushedErrors_append, List.append_assoc, List.length_append,
      hclen, hdlen]
    have h1 : ln + BATCH_SIZE + BATCH_SIZE * k = ln + (BATCH_SIZE + BATCH_SIZE * k) := by
      omega
    have h2 : processed + BATCH_SIZE + BATCH_SIZE * k =
        processed + (BATCH_SIZE + BATCH_SIZE * k) := by
      omega
    rw [h1, h2]

/-- C2: a batch containing a database error that is not a foreign-key
violation makes `commit_batch` return the error without committing (the
database is unchanged by the failing batch), and at the file level the
error propagates out of `insert_records_for_file` — processing stops — while
every batch committed before the failing one remains committed. -/
theorem c2_fatal_error_aborts (eng : Engine) (env : Env) (h : DataHandler)
    (file : FileMetadata) (schema : List (String × FieldDefinition))
    (pre post : List (List (Option String)))
    (hdes : parse_content (env.des file.id) = .ok schema)
    (hsplit : fileRows env schema file = pre ++ post)
    (hdiv : BATCH_SIZE ∣ pre.length)
    (hpre : ∀ v ∈ pre, isOkExec (eng v) = true ∨ isFk787 (eng v) = true)
    (hfatal : ∃ v ∈ post.take BATCH_SIZE, isFatal (eng v) = true) :
    (∀ (db : Database) (batch : List (List (Option String) × Nat)),
      (∃ p ∈ batch, isFatal (eng p.1) = true) →
      ∃ e, commit_batch eng db file (to_snake_case file.name) batch = (db, .error e)) ∧
    ∃ e, insert_records_for_file eng env h file =
      ({ h with db := { h.db with rows := (h.db.rows ++
          ((pre.filter fun v => isOkExec (eng v)).map
            (fun v => (to_snake_case file.name, v)))) } },
       .error e) := by
  constructor
  · intro db batch hb
    exact commit_batch_fatal eng db file (to_snake_case file.name) batch hb
  · obtain ⟨kk, hk⟩ := hdiv
    have hmap : (recordsOf schema (env.dat file.id)).map
        (rowValues (schema.map Prod.fst)) = pre ++ post := hsplit
    have hreclen : (recordsOf schema (env.dat file.id)).length =
        pre.length + post.length := by
      have := congrArg List.length hmap
      simpa using this
    have htake_map : ((recordsOf schema (env.dat file.id)).take pre.length).map
        (rowValues (schema.map Prod.fst)) = pre := by
      rw [List.map_take, hmap, List.take_left]
    have hdrop_map : ((recordsOf schema (env.dat file.id)).drop pre.length).map
        (rowValues (schema.map Prod.fst)) = post := by
      rw [List.map_drop, hmap, List.drop_left]
    have hprelen : ((recordsOf schema (env.dat file.id)).take pre.length).length =
        pre.length := by
      rw [List.length_take]
      omega
    have htake_nf : ∀ r ∈ (recordsOf schema (env.dat file.id)).take pre.length,
        isOkExec (eng (rowValues (schema.map Prod.fst) r)) = true ∨
          isFk787 (eng (rowValues (schema.map Prod.fst) r)) = true := by
      intro r hr
      apply hpre
      rw [← htake_map]
      exact List.mem_map_of_mem _ hr
    have hchunks := insertLoop_chunks eng file (to_snake_case file.name)
      (schema.map Prod.fst) kk
      ((recordsOf schema (env.dat file.id)).take pre.length)
      ((recordsOf schema (env.dat file.id)).drop pre.length)
      h.db 0 0 [] (by rw [hprelen]; exact hk) htake_nf
    obtain ⟨e, hfat⟩ := insertLoop_fatal eng file (to_snake_case file.name)
      (schema.map Prod.fst) ((recordsOf schema (env.dat file.id)).drop pre.length)
      ({ h.db with rows := (h.db.rows ++
        ((flushedRows eng (numbered 0
          (((recordsOf schema (env.dat file.id)).take pre.length).map
            (rowValues (schema.map Prod.fst))))).map
          (fun v => (to_snake_case file.name, v)))) })
      [] (0 + ((recordsOf schema (env.dat file.id)).take pre.length).length)
      (0 + ((recordsOf schema (env.dat file.id)).take pre.length).length)
      ([] ++ flushedErrors eng file (to_snake_case file.name)
        (numbered 0 (((recordsOf schema (env.dat file.id)).take pre.length).map
          (rowValues (schema.map Prod.fst)))))
      (Or.inr (by
        rw [hdrop_map]
        simpa using hfatal))
    have hins : insert_records_for_file eng env h file =
        ({ h with db := { h.db with rows := (h.db.rows ++
            ((flushedRows eng (numbered 0
              (((recordsOf schema (env.dat file.id)).take pre.length).map
                (rowValues (schema.map Prod.fst))))).map
              (fun v => (to_snake_case file.name, v)))) } },
         .error e) := by
      simp only [insert_records_for_file, hdes]
      conv_lhs => rw [show recordsOf schema (env.dat file.id) =
        (recordsOf schema (env.dat file.id)).take pre.length ++
          (recordsOf schema (env.dat file.id)).drop pre.length from
        (List.take_append_drop _ _).symm]
      rw [hchunks]
      simp only [hfat]
    refine ⟨e, ?_⟩
    rw [hins, htake_map, flushedRows_numbered]

/-- C2 witness: a single-row file whose row hits a fatal storage error
propagates the error and commits nothing. -/
theorem c2_witness :
    ∃ e, insert_records_for_file wEngFatal wEnv DataHandler.new wFile =
      ({ DataHandler.new with db := { DataHandler.new.db with
          rows := (DataHandler.new.db.rows ++
            ((([] : List (List (Option String))).filter
                fun v => isOkExec (wEngFatal v)).map
              (fun v => (to_snake_case wFile.name, v)))) } },
       .error e) :=
  (c2_fatal_error_aborts wEngFatal wEnv DataHandler.new wFile wSch []
    (fileRows wEnv wSch wFile) (by rfl) (by rfl) ⟨0, rfl⟩ (by simp)
    (by decide)).2

theorem insert_records_shape (eng : Engine) (env : Env) (H : DataHandler)
    (file : FileMetadata) :
    (∃ e, insert_records_for_file eng env H file = (H, .error e)) ∨
    (∃ db' e, insert_records_for_file eng env H file =
      ({ H with db := db' }, .error e)) ∨
    (∃ db' p le, insert_records_for_file eng env H file =
      ({ H with db := db', errors := H.errors ++ le }, .ok ⟨p, le⟩)) := by
  cases hdes : parse_content (env.des file.id) with
  | error e =>
    refine Or.inl ⟨e, ?_⟩
    unfold insert_records_for_file
    rw [hdes]
  | ok schema =>
    cases hl : insertLoop eng file (to_snake_case file.name) (schema.map Prod.fst)
        (recordsOf schema (env.dat file.id)) H.db [] 0 0 [] with
    | mk db' res =>
      cases res with
      | error e =>
        refine Or.inr (Or.inl ⟨db', e, ?_⟩)
        unfold insert_records_for_file
        rw [hdes]
        dsimp only
        rw [hl]
      | ok pr =>
        obtain ⟨p, le⟩ := pr
        refine Or.inr (Or.inr ⟨db', p, le, ?_⟩)
        unfold insert_records_for_file
        rw [hdes]
        dsimp only
        rw [hl]

theorem insert_records_ok_fields (eng : Engine) (env : Env) (H : DataHandler)
    (file : FileMetadata) (H' : DataHandler) (r : ProcessingResults)
    (hok : insert_records_for_file eng env H file = (H', .ok r)) :
    H'.errors = H.errors ++ r.errors ∧
    H'.is_initialized = H.is_initialized ∧
    H'.processed_files = H.processed_files ∧
    H'.reference_file = H.reference_file ∧
    H'.reference_table_name = H.reference_table_name ∧
    H'.reference_field = H.reference_field := by
  rcases insert_records_shape eng env H file with ⟨e, he⟩ | ⟨db', e, he⟩ | ⟨db', p, le, he⟩
  · rw [hok] at he
    exact absurd (congrArg Prod.snd he) (by simp)
  · rw [hok] at he
    exact absurd (congrArg Prod.snd he) (by simp)
  · rw [hok] at he
    have h1 : H' = { H with db := db', errors := H.errors ++ le } :=
      congrArg Prod.fst he
    have h2 : r = ⟨p, le⟩ := by
      have := congrArg Prod.snd he
      simpa using this
    subst h1
    subst h2
    exact ⟨rfl, rfl, rfl, rfl, rfl, rfl⟩

theorem process_file_ok_some (eng : Engine) (env : Env) (h : DataHandler)
    (file : FileMetadata) (h₁ : DataHandler) (r : ProcessingResults)
    (hrun : process_file eng env h file = (h₁, .ok (some r))) :
    h₁.is_initialized = h.is_initialized ∧
    h₁.processed_files = h.processed_files ++ [file.id] ∧
    h₁.errors = h.errors ++ r.errors ∧
    h₁.reference_file = h.reference_file ∧
    h₁.reference_table_name = h.reference_table_name ∧
    h₁.reference_field = h.reference_field := by
  unfold process_file at hrun
  split at hrun
  · exact absurd (congrArg Prod.snd hrun) (by simp)
  · split at hrun
    · exact absurd (congrArg Prod.snd hrun) (by simp)
    · split at hrun
      · exact absurd (congrArg Prod.snd hrun) (by simp)
      · rename_i db' tn heqct
        split at hrun
        · exact absurd (congrArg Prod.snd hrun) (by simp)
        · rename_i h' results heqir
          have h1 : ({ h' with
              processed_files := h'.processed_files ++ [file.id] } : DataHandler)
              = h₁ := congrArg Prod.fst hrun
          have h2 : results = r := by
            have := congrArg Prod.snd hrun
            simpa using this
          obtain ⟨he, hii, hpf, hrf, hrt, hrd⟩ :=
            insert_records_ok_fields eng env { h with db := db' } file h' results heqir
          subst h2
          rw [← h1]
          refine ⟨?_, ?_, ?_, ?_, ?_, ?_⟩ <;> simp_all

theorem process_file_skip (eng : Engine) (env : Env) (h : DataHandler)
    (file : FileMetadata) (hinit : h.is_initialized = true)
    (hmem : file.id ∈ h.processed_files) :
    process_file eng env h file = (h, .ok none) := by
  unfold process_file
  rw [hinit]
  simp only [Bool.not_true, Bool.false_eq_true, if_false]
  rw [if_pos hmem]

theorem process_file_ok_shape (eng : Engine) (env : Env) (h : DataHandler)
    (file : FileMetadata) (h₁ : DataHandler) (v : Option ProcessingResults)
    (hinit : h.is_initialized = true) (hnot : file.id ∉ h.processed_files)
    (hrun : process_file eng env h file = (h₁, .ok v)) :
    ∃ r, v = some r := by
  unfold process_file at hrun
  rw [hinit] at hrun
  simp only [Bool.not_true, Bool.false_eq_true, if_false, if_neg hnot] at hrun
  split at hrun
  · exact absurd (congrArg Prod.snd hrun) (by simp)
  · split at hrun
    · exact absurd (congrArg Prod.snd hrun) (by simp)
    · rename_i h' results heqir
      have hv : some results = v := by
        have := congrArg Prod.snd hrun
        simpa using this
      exact ⟨results, hv.symm⟩

/-- C3: `process_file` is idempotent per loader lifetime: on an initialized
handler the first (successful) call on a not-yet-processed file returns a
real `ProcessingResults`, and a second call on the resulting handler returns
the skipped signal `Ok(None)` leaving the handler — including its database —
completely unchanged; calling it on an already-processed file is a pure
no-op. -/
theorem c3_process_file_idempotent (eng : Engine) (env : Env) (h h₁ : DataHandler)
    (file : FileMetadata) (v : Option ProcessingResults)
    (hinit : h.is_initialized = true)
    (hrun : process_file eng env h file = (h₁, .ok v)) :
    (file.id ∉ h.processed_files →
      (∃ r, v = some r) ∧ process_file eng env h₁ file = (h₁, .ok none)) ∧
    (file.id ∈ h.processed_files → h₁ = h ∧ v = none) := by
  constructor
  · intro hnot
    obtain ⟨r, hr⟩ := process_file_ok_shape eng env h file h₁ v hinit hnot hrun
    subst hr
    obtain ⟨hii, hpf, _, _, _, _⟩ := process_file_ok_some eng env h file h₁ r hrun
    refine ⟨⟨r, rfl⟩, ?_⟩
    exact process_file_skip eng env h₁ file (by rw [hii]; exact hinit)
      (by rw [hpf]; exact List.mem_append_right _ (by simp))
  · intro hmem
    rw [process_file_skip eng env h file hinit hmem] at hrun
    have h1 := congrArg Prod.fst hrun
    have h2 := congrArg Prod.snd hrun
    simp only at h1 h2
    exact ⟨h1.symm, by simpa using h2.symm⟩

/-- C3 witness: processing the same file twice on one initialized handler —
the second call returns the skipped signal with the handler unchanged. -/
theorem c3_witness :
    process_file wEngOk wEnv (process_file wEngOk wEnv wHand wFile).1 wFile =
      ((process_file wEngOk wEnv wHand wFile).1, .ok none) :=
  (((c3_process_file_idempotent wEngOk wEnv wHand
      (process_file wEngOk wEnv wHand wFile).1 wFile
      (some ⟨3, []⟩) (by rfl) (by rfl)).1) (by decide)).2

/-- C4 counterexample: `init` performs no already-initialized check.  On an
already initialized handler, a second `init` with a *different* reference
file does not fail — it succeeds, processes the new file, and overwrites
the previously established reference binding. -/
theorem c4_counterexample :
    (init wEngOk wEnv (init wEngOk wEnv DataHandler.new wFile).1 wFileB).2 =
      .ok ⟨3, []⟩ ∧
    (init wEngOk wEnv DataHandler.new wFile).1.reference_table_name =
      some "dep_file" ∧
    (init wEngOk wEnv (init wEngOk wEnv DataHandler.new wFile).1
        wFileB).1.reference_table_name = some "ref_b" :=
  ⟨by rfl, by rfl, by rfl⟩

theorem process_file_ok_none (eng : Engine) (env : Env) (h : DataHandler)
    (file : FileMetadata) (h₁ : DataHandler)
    (hrun : process_file eng env h file = (h₁, .ok none)) : h₁ = h := by
  unfold process_file at hrun
  split at hrun
  · exact absurd (congrArg Prod.snd hrun) (by simp)
  · split at hrun
    · exact (congrArg Prod.fst hrun).symm
    · split at hrun
      · exact absurd (congrArg Prod.snd hrun) (by simp)
      · split at hrun
        · exact absurd (congrArg Prod.snd hrun) (by simp)
        · exact absurd (congrArg Prod.snd hrun) (by simp)

/-- C4 amended: `init` runs without any re-initialization guard, but
re-running it with the *same* reference file fails: the binding is
recomputed to the identical values and `process_file` then skips the
already-processed file, which `init` turns into the
"Failed to process reference file" error, leaving the handler — and with it
the established reference binding — unchanged. -/
theorem c4_reinit_same_file_fails (eng : Engine) (env : Env) (h h₁ : DataHandler)
    (file : FileMetadata) (r : ProcessingResults)
    (hrun : init eng env h file = (h₁, .ok r)) :
    init eng env h₁ file = (h₁, .error "Failed to process reference file") := by
  unfold init at hrun
  split at hrun
  · exact absurd (congrArg Prod.snd hrun) (by simp)
  · rename_i schema heqdes
    split at hrun
    · exact absurd (congrArg Prod.snd hrun) (by simp)
    · rename_i rf heqpk
      dsimp only at hrun
      split at hrun
      · exact absurd (congrArg Prod.snd hrun) (by simp)
      · exact absurd (congrArg Prod.snd hrun) (by simp)
      · rename_i h' results heqpf
        have hfst : h' = h₁ := congrArg Prod.fst hrun
        subst hfst
        have hfacts := process_file_ok_some eng env _ file h' results heqpf
        have hA : h'.reference_file = some file := hfacts.2.2.2.1
        have hB : h'.reference_table_name = some (to_snake_case file.name) :=
          hfacts.2.2.2.2.1
        have hC : h'.reference_field = some rf := hfacts.2.2.2.2.2
        have hD : h'.is_initialized = true := hfacts.1
        have hE : h'.processed_files = h.processed_files ++ [file.id] := hfacts.2.1
        have hmem : file.id ∈ h'.processed_files := by
          rw [hE]
          exact List.mem_append_right _ (by simp)
        unfold init
        rw [heqdes]
        dsimp only
        rw [heqpk]
        dsimp only
        have hlit : ({ h' with
            reference_file := some file
            reference_table_name := some (to_snake_case file.name)
            reference_field := some rf
            is_initialized := true } : DataHandler) = h' := by
          obtain ⟨db0, a0, b0, c0, d0, e0, f0⟩ := h'
          simp only at hA hB hC hD
          subst hA
          subst hB
          subst hC
          subst hD
          rfl
        rw [hlit]
        rw [process_file_skip eng env h' file hD hmem]

/-- C4 witness for the amended claim: a second `init` with the same
reference file on the handler produced by the first `init` fails with the
"Failed to process reference file" error and leaves the handler unchanged. -/
theorem c4_witness :
    init wEngOk wEnv (init wEngOk wEnv DataHandler.new wFile).1 wFile =
      ((init wEngOk wEnv DataHandler.new wFile).1,
       .error "Failed to process reference file") :=
  c4_reinit_same_file_fails wEngOk wEnv DataHandler.new
    (init wEngOk wEnv DataHandler.new wFile).1 wFile ⟨3, []⟩ (by rfl)

/-- C10: `insert_records_for_file` appends exactly the errors it returns to
the handler's cumulative `errors` vector, preserving previously recorded
entries and their order; consequently, sequential processing of several
files leaves `errors` equal to the concatenation of the per-file error
lists in processing order (a skipped file contributes nothing). -/
theorem c10_error_accumulation (eng : Engine) (env : Env) :
    (∀ (h : DataHandler) (file : FileMetadata) (h' : DataHandler)
        (r : ProcessingResults),
      insert_records_for_file eng env h file = (h', .ok r) →
      h'.errors = h.errors ++ r.errors) ∧
    (∀ (files : List FileMetadata) (h h' : DataHandler)
        (errss : List (List ErrorDetails)),
      processAll eng env h files = (h', .ok errss) →
      h'.errors = h.errors ++ errss.flatten) := by
  constructor
  · intro h file h' r hok
    exact (insert_records_ok_fields eng env h file h' r hok).1
  · intro files
    induction files with
    | nil =>
      intro h h' errss hrun
      unfold processAll at hrun
      have h1 := congrArg Prod.fst hrun
      have h2 : ([] : List (List ErrorDetails)) = errss := by
        have := congrArg Prod.snd hrun
        simpa using this
      simp only at h1
      rw [← h1, ← h2]
      simp
    | cons f fs ih =>
      intro h h' errss hrun
      unfold processAll at hrun
      split at hrun
      · exact absurd (congrArg Prod.snd hrun) (by simp)
      · rename_i h₁ heqpf
        split at hrun
        · exact absurd (congrArg Prod.snd hrun) (by simp)
        · rename_i h₂ errss' heqall
          have hh : h₂ = h' := congrArg Prod.fst hrun
          have he : ([] : List ErrorDetails) :: errss' = errss := by
            have := congrArg Prod.snd hrun
            simpa using this
          have hskip : h₁ = h := process_file_ok_none eng env h f h₁ heqpf
          rw [← hh, ← he, ih h₁ h₂ errss' heqall, hskip]
          simp
      · rename_i h₁ r heqpf
        split at hrun
        · exact absurd (congrArg Prod.snd hrun) (by simp)
        · rename_i h₂ errss' heqall
          have hh : h₂ = h' := congrArg Prod.fst hrun
          have he : r.errors :: errss' = errss := by
            have := congrArg Prod.snd hrun
            simpa using this
          have herr : h₁.errors = h.errors ++ r.errors :=
            (process_file_ok_some eng env h f h₁ r heqpf).2.2.1
          rw [← hh, ← he, ih h₁ h₂ errss' heqall, herr]
          simp

/-- C10 witness: one processed file on an initialized handler — the
handler's cumulative errors are the previous errors followed by the file's
error list. -/
theorem c10_witness :
    (processAll wEngFk wEnv wHand [wFile]).1.errors =
      wHand.errors ++ [flushedErrors wEngFk wFile (to_snake_case wFile.name)
        (numbered 0 (fileRows wEnv wSch wFile))].flatten :=
  (c10_error_accumulation wEngFk wEnv).2 [wFile] wHand
    (processAll wEngFk wEnv wHand [wFile]).1
    [flushedErrors wEngFk wFile (to_snake_case wFile.name)
      (numbered 0 (fileRows wEnv wSch wFile))] (by rfl)

end NcdacOpi
